import Mathlib

/-
Verification of the document scan/replace engine of WordGlobalReplace
(src/advanced_word_processor.py), as a shallow embedding in Lean 4.

Text is modelled as `List Char`; a python-docx document is modelled by the
texts it exposes: the list of paragraph texts and, per table, per row, the
list of cell texts.  File-system state is a map from paths to optional
document contents.  Platform effects (shutil.copy2 success, textutil
availability) are explicit boolean parameters.
-/

namespace WGR

/-- Text content: a Python string modelled as its list of characters. -/
abbrev Str := List Char

/-- Convenience: the character list of a Lean string literal. -/
def str (s : String) : Str := s.data

/-- Character-wise lowercasing, modelling Python str.lower(). -/
def lowerStr (s : Str) : Str := s.map Char.toLower

/-- Python substring containment `pat in s`. -/
def hasSub : Str → Str → Bool
  | [], pat => pat.isPrefixOf ([] : Str)
  | s@(_ :: t), pat => pat.isPrefixOf s || hasSub t pat

/-- Fuelled worker for Python str.replace with a non-empty needle:
replace every non-overlapping occurrence, scanning left to right. -/
def pyReplaceAux (old new : Str) : Nat → Str → Str
  | 0, s => s
  | fuel + 1, s =>
    if old.isPrefixOf s then new ++ pyReplaceAux old new fuel (s.drop old.length)
    else
      match s with
      | [] => []
      | c :: t => c :: pyReplaceAux old new fuel t

/-- Python `s.replace(old, new)`: all non-overlapping occurrences replaced,
left to right; an empty needle inserts `new` at every position. -/
def pyReplace (s old new : Str) : Str :=
  if old.isEmpty then new ++ (s.map (fun c => c :: new)).flatten
  else pyReplaceAux old new (s.length + 1) s

/-- Python `"\n".join(parts)`: the separator goes between parts only. -/
def joinNL : List Str → Str
  | [] => []
  | [p] => p
  | p :: q :: r => p ++ '\n' :: joinNL (q :: r)

/-- Python slice `s[i:j]` for 0 ≤ i ≤ j. -/
def sliceStr (s : Str) (i j : Nat) : Str := (s.drop i).take (j - i)

/-- A structured (.docx) document as python-docx presents it to this code:
paragraph texts in document order, and tables as rows of cell texts. -/
structure Document where
  paragraphs : List Str
  tables : List (List (List Str))
  deriving DecidableEq

/-- Truthiness of `paragraph.text.strip()`: some non-whitespace character. -/
def keepPara (p : Str) : Bool := p.any (fun c => !c.isWhitespace)

/-- The paragraph list retained by extract_text_with_structure
(`if paragraph.text.strip()`): non-empty-trimmed paragraphs, in order. -/
def retainedParas (doc : Document) : List Str := doc.paragraphs.filter keepPara

/-- All table cell texts in table/row/cell order (cells kept regardless of
emptiness), as collected by the extraction loops. -/
def cellTexts (doc : Document) : List Str := (doc.tables.map (fun t => t.flatten)).flatten

/-- The `all_text_parts` list built by extract_text_with_structure:
retained paragraphs first, then every table cell. -/
def allTextParts (doc : Document) : List Str := retainedParas doc ++ cellTexts doc

/-- The `full_text` field: `"\n".join(all_text_parts)`. -/
def extractFullText (doc : Document) : Str := joinNL (allTextParts doc)

/-- Character comparison of the literal matcher: exact, or after lowering
both sides when the search is case-insensitive (re.IGNORECASE). -/
def charEq (cs : Bool) (a b : Char) : Bool :=
  if cs then decide (a = b) else decide (a.toLower = b.toLower)

/-- Does the (escaped-literal) search term match at the head of the text? -/
def matchesAt (cs : Bool) : Str → Str → Bool
  | [], _ => true
  | _ :: _, [] => false
  | a :: t, b :: u => charEq cs a b && matchesAt cs t u

/-- Fuelled left-to-right non-overlapping scan of re.finditer with a literal
pattern of length L over a text of length n, starting at position i: a
match at i is emitted and scanning resumes at its end (one past it for a
zero-width match); otherwise the scan advances by one. -/
def scanAux (p : Nat → Bool) (L n : Nat) : Nat → Nat → List Nat
  | 0, _ => []
  | fuel + 1, i =>
    if i + L ≤ n then
      if p i then i :: scanAux p L n fuel (i + max L 1)
      else scanAux p L n fuel (i + 1)
    else []

/-- The match predicate used on a concrete text and term. -/
def matcherOf (text term : Str) (cs : Bool) : Nat → Bool :=
  fun i => matchesAt cs term (text.drop i)

/-- Start positions of the non-overlapping matches of `term` in `text`,
in order of appearance (re.finditer over the escaped literal). -/
def findPositions (text term : Str) (cs : Bool) : List Nat :=
  scanAux (matcherOf text term cs) term.length text.length (text.length + 1) 0

/-- One occurrence dictionary of find_occurrences_with_context. -/
structure MatchRecord where
  file_path : Str
  match_text : Str
  context_before : Str
  context_after : Str
  full_context : Str
  context : Str
  start_pos : Nat
  end_pos : Nat
  location_type : String
  location_index : Nat
  replacement_text : Str
  unique_id : Str
  deriving DecidableEq, Inhabited

/-- Table cells flattened across all tables, each tagged with its table
index, in the order the location loop visits them. -/
def flatCellsIdx (tables : List (List (List Str))) : List (Nat × Str) :=
  (tables.enum.map (fun ti => ti.2.flatten.map (fun c => (ti.1, c)))).flatten

/-- The table-location walk of find_occurrences_with_context: the running
offset starts at the given position and advances by `len(cell) + 1` per
cell; the first cell whose range contains `start` names its table. -/
def cellWalk : List (Nat × Str) → Nat → Nat → Option Nat
  | [], _, _ => none
  | (ti, c) :: rest, pos, start =>
    if pos ≤ start ∧ start < pos + (c.length + 1) then some ti
    else cellWalk rest (pos + (c.length + 1)) start

/-- The paragraph-location walk over the retained paragraph list. -/
def paraWalk : List Str → Nat → Nat → Option Nat
  | [], _, _ => none
  | p :: rest, pos, start =>
    if pos ≤ start ∧ start < pos + (p.length + 1) then some 0
    else (paraWalk rest (pos + (p.length + 1)) start).map (· + 1)

/-- Location classification of a match offset: the table walk runs first,
with its running offset starting at 0; only if no cell range matched is
the paragraph walk performed, its index defaulting to 0. -/
def locationOf (doc : Document) (start : Nat) : String × Nat :=
  match cellWalk (flatCellsIdx doc.tables) 0 start with
  | some ti => ("table", ti)
  | none => ("paragraph", (paraWalk (retainedParas doc) 0 start).getD 0)

/-- Decimal digits of a natural number, as text. -/
def natStr (n : Nat) : Str := (Nat.repr n).data

/-- Final path component (Path(file_path).name). -/
def lastComponent (p : Str) : Str :=
  p.foldl (fun acc c => if c = '/' then [] else acc ++ [c]) []

/-- The find_occurrences_with_context pass: extract the document, scan the
full text, and build one record per match.  An empty full text short
circuits to no occurrences. -/
def findOccurrences (fp : Str) (doc : Document) (term : Str) (ctxChars : Nat)
    (cs : Bool) : List MatchRecord :=
  let ft := extractFullText doc
  if ft.isEmpty then []
  else
    (findPositions ft term cs).map (fun s =>
      let e := s + term.length
      let cstart := Int.toNat (max 0 ((s : Int) - (ctxChars : Int)))
      let cend := min ft.length (e + ctxChars)
      let mt := sliceStr ft s e
      let loc := locationOf doc s
      { file_path := fp
        match_text := mt
        context_before := sliceStr ft cstart s
        context_after := sliceStr ft e cend
        full_context := sliceStr ft cstart cend
        context := sliceStr ft cstart cend
        start_pos := s
        end_pos := e
        location_type := loc.1
        location_index := loc.2
        replacement_text := pyReplace mt term term
        unique_id := lastComponent fp ++ '_' :: natStr s ++ '_' :: natStr e })

/-- The paragraph loop of replace_text_advanced (also one table row's cell
loop): each block whose text contains the old text has all occurrences
replaced and bumps the running replacement counter by one. -/
def blockLoop (old new : Str) : List Str → Nat → List Str × Nat
  | [], k => ([], k)
  | b :: rest, k =>
    if hasSub b old then
      let r := blockLoop old new rest (k + 1)
      (pyReplace b old new :: r.1, r.2)
    else
      let r := blockLoop old new rest k
      (b :: r.1, r.2)

/-- The row loop of replace_text_advanced over one table. -/
def rowLoop (old new : Str) : List (List Str) → Nat → List (List Str) × Nat
  | [], k => ([], k)
  | row :: rest, k =>
    let c := blockLoop old new row k
    let rr := rowLoop old new rest c.2
    (c.1 :: rr.1, rr.2)

/-- The table loop of replace_text_advanced. -/
def tableLoop (old new : Str) : List (List (List Str)) → Nat → List (List (List Str)) × Nat
  | [], k => ([], k)
  | t :: rest, k =>
    let r := rowLoop old new t k
    let rr := tableLoop old new rest r.2
    (r.1 :: rr.1, rr.2)

/-- The in-memory replacement pass of replace_text_advanced: paragraphs
first, then every table cell, threading the replacement counter. -/
def replaceInDoc (doc : Document) (old new : Str) : Document × Nat :=
  let p := blockLoop old new doc.paragraphs 0
  let t := tableLoop old new doc.tables p.2
  (⟨p.1, t.1⟩, t.2)

/-- Specification-side description of the replaced document: every block
(paragraph or cell) containing the old text has all its occurrences
replaced; all other blocks are untouched. -/
def replacedDoc (doc : Document) (old new : Str) : Document :=
  ⟨doc.paragraphs.map (fun b => if hasSub b old then pyReplace b old new else b),
   doc.tables.map (fun t => t.map (fun row =>
     row.map (fun b => if hasSub b old then pyReplace b old new else b)))⟩

/-- The number of blocks (paragraphs plus table cells) whose text contains
the old text as a substring. -/
def blockCount (doc : Document) (old : Str) : Nat :=
  doc.paragraphs.countP (fun b => hasSub b old) +
    ((doc.tables.map (fun t => t.flatten)).flatten).countP (fun b => hasSub b old)

/-- On-disk state: each path maps to the document stored there, if any.
Contents are compared as parsed documents; byte-identical copies are
modelled as equal `Document` values. -/
abbrev FileSys := Str → Option Document

/-- Point update of the file system. -/
def updateFS (fs : FileSys) (p : Str) (v : Option Document) : FileSys :=
  fun q => if q = p then v else fs q

/-- Extension of a file name, as pathlib computes it: the part from the
last dot, provided that dot is neither the leading character nor the last
character of the name. -/
def extSuffix (name : Str) : Str :=
  let after := name.reverse.takeWhile (fun c => !(c = '.'))
  if name.contains '.' ∧ ¬after.isEmpty ∧ after.length + 1 < name.length then
    '.' :: after.reverse
  else []

/-- Path(file_path).suffix: the extension of the final path component. -/
def pathSuffixOf (path : Str) : Str := extSuffix (lastComponent path)

/-- Path(file_path).stem: the final component without its suffix. -/
def stemOf (path : Str) : Str :=
  let n := lastComponent path
  n.take (n.length - (extSuffix n).length)

/-- is_word_file: the suffix, lowercased, is one of the two supported
extensions ".docx" and ".doc". -/
def isWordFile (path : Str) : Bool :=
  let s := lowerStr (pathSuffixOf path)
  decide (s = str ".docx" ∨ s = str ".doc")

/-- Name of the backup copy: stem, timestamp, and the original suffix
(defaulting to ".docx" when the name has no suffix). -/
def backupName (path ts : Str) : Str :=
  stemOf path ++ '_' :: ts ++
    (if (pathSuffixOf path).isEmpty then str ".docx" else pathSuffixOf path)

/-- Full path of the backup copy inside the fixed backup directory. -/
def backupFilePath (path ts : Str) : Str := str "backups/" ++ backupName path ts

/-- create_backup: best-effort copy of the file into the backup directory
under a timestamped name.  A failed copy (modelled by `copyOk = false` or
a missing source) yields an empty backup path and leaves the disk alone;
it never raises. -/
def createBackup (fs : FileSys) (path ts : Str) (copyOk : Bool) : Str × FileSys :=
  if copyOk ∧ (fs path).isSome then
    (backupFilePath path ts, updateFS fs (backupFilePath path ts) (fs path))
  else ([], fs)

/-- The result dictionary of replace_text_advanced. -/
structure RResult where
  success : Bool
  replacements_made : Nat
  backup_path : Str
  error : Option Str
  deriving DecidableEq

/-- Error text `No occurrences of '<old>' found`. -/
def noOccMsg (old : Str) : Str := str "No occurrences of '" ++ old ++ str "' found"

/-- Error text when the .doc-to-.docx converter is unavailable. -/
def docConvErrMsg : Str :=
  str ".doc conversion unavailable on this system. Install textutil on macOS."

/-- Error text when converting the saved .docx back to .doc fails. -/
def docBackErrMsg : Str := str "Failed to convert updated .docx back to .doc."

/-- Message of the exception raised when the document cannot be opened;
the exact wording comes from python-docx and is modelled abstractly. -/
def openErrMsg : Str := str "document could not be opened"

/-- Everything replace_text_advanced does after the backup step, acting on
the content stored at the target path: fail if a needed .doc conversion is
unavailable, fail if the document cannot be opened, otherwise run the
replacement loops; with no replacement event the document is not saved and
a no-occurrences failure is reported; a failed back-conversion to .doc is
reported without touching the original.  The second component is the
content the target path holds afterwards.  The textutil round trips are
modelled as content preserving. -/
def replaceCore (content : Option Document) (old new : Str)
    (isDoc cA cB : Bool) : (Bool × Nat × Option Str) × Option Document :=
  if isDoc ∧ ¬cA then ((false, 0, some docConvErrMsg), content)
  else
    match content with
    | none => ((false, 0, some openErrMsg), none)
    | some doc =>
      let r := replaceInDoc doc old new
      if r.2 = 0 then ((false, 0, some (noOccMsg old)), some doc)
      else if isDoc ∧ ¬cB then ((false, 0, some docBackErrMsg), some doc)
      else ((true, r.2, none), some r.1)

/-- replace_text_advanced: back up first (best effort), then attempt the
replacement.  `occurrenceId` is accepted, as in the source, but never
read.  `backupOk` models whether shutil.copy2 succeeds, `cA`/`cB` whether
textutil conversion to and from .docx is available.  The backup step never
changes the content stored at the target path, so the core may read the
pre-backup state. -/
def replaceTextAdvanced (fs : FileSys) (path old new : Str)
    (occurrenceId : Option Str) (ts : Str) (backupOk cA cB : Bool) :
    RResult × FileSys :=
  let b := createBackup fs path ts backupOk
  let isDoc : Bool := decide (lowerStr (pathSuffixOf path) = str ".doc")
  let core := replaceCore (fs path) old new isDoc cA cB
  ({ success := core.1.1, replacements_made := core.1.2.1,
     backup_path := b.1, error := core.1.2.2 },
   updateFS b.2 path core.2)

mutual
/-- A directory tree entry: a file (with the parseable document it holds,
if any) or a subdirectory.  Names are final path components; the suffix of
a full path equals the suffix of its final component, so names suffice for
the extension logic. -/
inductive FSEntry where
  | file (name : Str) (content : Option Document)
  | dir (name : Str) (children : FSList)
/-- A directory listing of tree entries. -/
inductive FSList where
  | nil
  | cons (e : FSEntry) (rest : FSList)
end

/-- Name of a tree entry. -/
def entryName : FSEntry → Str
  | .file n _ => n
  | .dir n _ => n

mutual
/-- Path.rglob(f"*{ext}") restricted to one entry: pathlib pattern
matching is case sensitive, so `*<ext>` matches exactly the names ending
in `ext`; directories match like files and are also reported. -/
def rglobE (ext : Str) : FSEntry → List FSEntry
  | .file n c => if ext.isSuffixOf n then [.file n c] else []
  | .dir n cs => (if ext.isSuffixOf n then [.dir n cs] else []) ++ rglobL ext cs
/-- Path.rglob(f"*{ext}") over a directory listing, recursively. -/
def rglobL (ext : Str) : FSList → List FSEntry
  | .nil => []
  | .cons e rest => rglobE ext e ++ rglobL ext rest
end

mutual
/-- Every entry below a tree entry, itself included, in preorder. -/
def descendE : FSEntry → List FSEntry
  | .file n c => [.file n c]
  | .dir n cs => .dir n cs :: descendL cs
/-- Every entry below a directory listing, in preorder. -/
def descendL : FSList → List FSEntry
  | .nil => []
  | .cons e rest => descendE e ++ descendL rest
end

/-- The `word_files` list of scan_directory_advanced: one rglob pass per
supported extension, in the order ['.docx', '.doc']. -/
def wordFilesOf (entries : FSList) : List FSEntry :=
  rglobL (str ".docx") entries ++ rglobL (str ".doc") entries

/-- What find_occurrences_with_context returns for one discovered entry:
the match records of a parseable file; an unreadable file or a directory
makes extraction fail internally, which yields an empty full text and so
no occurrences. -/
def entryOccurrences (e : FSEntry) (term : Str) (ctx : Nat) (cs : Bool) :
    List MatchRecord :=
  match e with
  | .file n (some d) => findOccurrences n d term ctx cs
  | .file _ none => []
  | .dir _ _ => []

/-- The result dictionary of scan_directory_advanced.  The missing-directory
branch builds a dictionary without the files_with_matches key, modelled as
`none`. -/
structure ScanResult where
  success : Bool
  error : Option Str
  files_scanned : Nat
  files_processed : Nat
  files_with_matches : Option Nat
  total_occurrences : Nat
  occurrences : List MatchRecord
  deriving DecidableEq

/-- scan_directory_advanced: `none` for the root models a nonexistent
directory path and reports a structured failure; otherwise the word files
are discovered by the two rglob passes, each one passing the is_word_file
check is scanned, and the counts are aggregated.  The function is total:
no exception escapes. -/
def scanDirectoryAdvanced (root : Option FSList) (dirName term : Str)
    (ctx : Nat) (cs : Bool) : ScanResult :=
  match root with
  | none =>
    { success := false
      error := some (str "Directory " ++ dirName ++ str " does not exist")
      files_scanned := 0
      files_processed := 0
      files_with_matches := none
      total_occurrences := 0
      occurrences := [] }
  | some entries =>
    let wordFiles := wordFilesOf entries
    let perFile := wordFiles.map (fun e =>
      if isWordFile (entryName e) then entryOccurrences e term ctx cs else [])
    let allOcc := perFile.flatten
    { success := true
      error := none
      files_scanned := wordFiles.length
      files_processed := wordFiles.length
      files_with_matches := some ((perFile.filter (fun l => !l.isEmpty)).length)
      total_occurrences := allOcc.length
      occurrences := allOcc }

theorem joinNL_eq_dropLast (l : List Str) :
    joinNL l = ((l.map (fun p => p ++ ['\n'])).flatten).dropLast := by
  induction l with
  | nil => rfl
  | cons p rest ih =>
    cases rest with
    | nil => simp [joinNL]
    | cons q r =>
      have hne : ((q ++ ['\n']) :: (r.map (fun p => p ++ ['\n']))).flatten ≠ [] := by
        simp [List.flatten_cons]
      calc joinNL (p :: q :: r) = p ++ '\n' :: joinNL (q :: r) := by simp [joinNL]
        _ = (p ++ ['\n']) ++ joinNL (q :: r) := by simp
        _ = (p ++ ['\n']) ++ (((q :: r).map (fun p => p ++ ['\n'])).flatten).dropLast := by
              rw [ih]
        _ = (((p :: q :: r).map (fun p => p ++ ['\n'])).flatten).dropLast := by
              simp only [List.map_cons, List.flatten_cons] at hne ⊢
              rw [List.dropLast_append_of_ne_nil _ hne]

theorem blockLoop_eq (old new : Str) :
    ∀ (l : List Str) (k : Nat),
      blockLoop old new l k =
        (l.map (fun b => if hasSub b old then pyReplace b old new else b),
         k + l.countP (fun b => hasSub b old)) := by
  intro l
  induction l with
  | nil => intro k; simp [blockLoop]
  | cons b rest ih =>
    intro k
    by_cases h : hasSub b old = true
    · simp [blockLoop, h, ih, List.countP_cons]; omega
    · simp [blockLoop, h, ih, List.countP_cons]

theorem rowLoop_eq (old new : Str) :
    ∀ (rows : List (List Str)) (k : Nat),
      rowLoop old new rows k =
        (rows.map (fun row =>
           row.map (fun b => if hasSub b old then pyReplace b old new else b)),
         k + (rows.map (fun row => row.countP (fun b => hasSub b old))).sum) := by
  intro rows
  induction rows with
  | nil => intro k; simp [rowLoop]
  | cons row rest ih =>
    intro k
    simp [rowLoop, blockLoop_eq, ih, List.sum_cons]
    omega

theorem tableLoop_eq (old new : Str) :
    ∀ (tables : List (List (List Str))) (k : Nat),
      tableLoop old new tables k =
        (tables.map (fun t => t.map (fun row =>
           row.map (fun b => if hasSub b old then pyReplace b old new else b))),
         k + (tables.map (fun t =>
           (t.map (fun row => row.countP (fun b => hasSub b old))).sum)).sum) := by
  intro tables
  induction tables with
  | nil => intro k; simp [tableLoop]
  | cons t rest ih =>
    intro k
    simp [tableLoop, rowLoop_eq, ih, List.sum_cons]
    omega

theorem countP_flattenL {α : Type} (p : α → Bool) :
    ∀ l : List (List α), (l.flatten).countP p = (l.map (fun x => x.countP p)).sum := by
  intro l
  induction l with
  | nil => rfl
  | cons x rest ih => simp [List.flatten_cons, List.countP_append, ih]

theorem tablesCount_eq (old : Str) (tables : List (List (List Str))) :
    (tables.map (fun t => (t.map (fun row => row.countP (fun b => hasSub b old))).sum)).sum
      = ((tables.map (fun t => t.flatten)).flatten).countP (fun b => hasSub b old) := by
  rw [countP_flattenL, List.map_map]
  refine congrArg List.sum (List.map_congr_left ?_)
  intro t _
  simp [Function.comp, countP_flattenL]

theorem replaceInDoc_eq (doc : Document) (old new : Str) :
    replaceInDoc doc old new = (replacedDoc doc old new, blockCount doc old) := by
  simp only [replaceInDoc, blockLoop_eq, tableLoop_eq, replacedDoc, blockCount]
  simp [tablesCount_eq]

theorem scanAux_fuel (p : Nat → Bool) (L n : Nat) :
    ∀ f g i, n + 1 - i ≤ f → n + 1 - i ≤ g →
      scanAux p L n f i = scanAux p L n g i := by
  intro f
  induction f with
  | zero =>
    intro g i hf hg
    have hni : ¬(i + L ≤ n) := by omega
    cases g with
    | zero => rfl
    | succ g => simp [scanAux, hni]
  | succ f ih =>
    intro g i hf hg
    cases g with
    | zero =>
      have hni : ¬(i + L ≤ n) := by omega
      simp [scanAux, hni]
    | succ g =>
      have hm1 : 1 ≤ max L 1 := Nat.le_max_right L 1
      simp only [scanAux]
      by_cases hiL : i + L ≤ n
      · by_cases hp : p i = true
        · simp only [hiL, if_true, hp]
          rw [ih g (i + max L 1) (by omega) (by omega)]
        · simp only [hiL, if_true, hp, Bool.false_eq_true, if_false]
          rw [ih g (i + 1) (by omega) (by omega)]
      · simp [hiL]

/-- The finditer scan from position i, with just enough fuel. -/
def scanPos (p : Nat → Bool) (L n i : Nat) : List Nat :=
  scanAux p L n (n + 1 - i) i

theorem scanPos_step (p : Nat → Bool) (L n i : Nat) :
    scanPos p L n i =
      if i + L ≤ n then
        if p i then i :: scanPos p L n (i + max L 1) else scanPos p L n (i + 1)
      else [] := by
  have hm1 : 1 ≤ max L 1 := Nat.le_max_right L 1
  unfold scanPos
  cases h : n + 1 - i with
  | zero =>
    have hni : ¬(i + L ≤ n) := by omega
    simp [scanAux, hni]
  | succ f =>
    simp only [scanAux]
    by_cases hiL : i + L ≤ n
    · by_cases hp : p i = true
      · simp only [hiL, if_true, hp]
        rw [scanAux_fuel p L n f (n + 1 - (i + max L 1)) (i + max L 1) (by omega) (by omega)]
      · simp only [hiL, if_true, hp, Bool.false_eq_true, if_false]
        rw [scanAux_fuel p L n f (n + 1 - (i + 1)) (i + 1) (by omega) (by omega)]
    · simp [hiL]

theorem findPositions_eq_scanPos (text term : Str) (cs : Bool) :
    findPositions text term cs =
      scanPos (matcherOf text term cs) term.length text.length 0 := by
  simp [findPositions, scanPos]

theorem scanAux_mem (p : Nat → Bool) (L n : Nat) :
    ∀ f i s, s ∈ scanAux p L n f i → s + L ≤ n ∧ p s = true ∧ i ≤ s := by
  intro f
  induction f with
  | zero => intro i s hs; simp [scanAux] at hs
  | succ f ih =>
    intro i s hs
    have hm1 : 1 ≤ max L 1 := Nat.le_max_right L 1
    simp only [scanAux] at hs
    by_cases hiL : i + L ≤ n
    · rw [if_pos hiL] at hs
      by_cases hp : p i = true
      · rw [if_pos hp] at hs
        rcases List.mem_cons.mp hs with h | h
        · subst h; exact ⟨hiL, hp, Nat.le_refl s⟩
        · obtain ⟨h1, h2, h3⟩ := ih _ _ h
          exact ⟨h1, h2, by omega⟩
      · rw [if_neg hp] at hs
        obtain ⟨h1, h2, h3⟩ := ih _ _ hs
        exact ⟨h1, h2, by omega⟩
    · rw [if_neg hiL] at hs
      simp at hs

/-- Greedy monotonicity of the non-overlapping scan: a pointwise stronger
match predicate, started no later, never yields fewer matches. -/
theorem scanPos_length_le (p q : Nat → Bool) (L n : Nat) (hL : 1 ≤ L)
    (hpq : ∀ k, p k = true → q k = true) :
    ∀ m i j, (n + 1 - i) + (n + 1 - j) ≤ m → i ≤ j →
      (scanPos p L n j).length ≤ (scanPos q L n i).length := by
  have hmax : max L 1 = L := Nat.max_eq_left hL
  intro m
  induction m with
  | zero =>
    intro i j hm hij
    rw [scanPos_step]
    have hni : ¬(j + L ≤ n) := by omega
    simp [hni]
  | succ m ih =>
    intro i j hm hij
    by_cases hjL : j + L ≤ n
    · by_cases hpj : p j = true
      · by_cases hqi : q i = true
        · rw [scanPos_step p, if_pos hjL, if_pos hpj,
            scanPos_step q, if_pos (show i + L ≤ n by omega), if_pos hqi]
          simp only [List.length_cons, Nat.succ_le_succ_iff]
          exact ih (i + max L 1) (j + max L 1) (by rw [hmax]; omega) (by omega)
        · have hij2 : i + 1 ≤ j := by
            rcases Nat.eq_or_lt_of_le hij with h | h
            · exfalso; apply hqi; rw [h]; exact hpq j hpj
            · omega
          rw [scanPos_step q, if_pos (show i + L ≤ n by omega), if_neg hqi]
          exact ih (i + 1) j (by omega) hij2
      · rw [scanPos_step p, if_pos hjL, if_neg hpj]
        exact ih i (j + 1) (by omega) (by omega)
    · rw [scanPos_step p, if_neg hjL]
      simp

theorem matchesAt_cs_imp (term : Str) :
    ∀ s, matchesAt true term s = true → matchesAt false term s = true := by
  induction term with
  | nil => intro s _; rfl
  | cons a t ih =>
    intro s h
    cases s with
    | nil => simp [matchesAt] at h
    | cons b u =>
      simp only [matchesAt, Bool.and_eq_true] at h ⊢
      have h1 : a = b := by
        have := h.1; simp [charEq] at this; exact this
      refine ⟨?_, ih u h.2⟩
      simp [charEq, h1]

theorem matchesAt_lower (term : Str) :
    ∀ u, matchesAt false term u = true →
      lowerStr (u.take term.length) = lowerStr term := by
  induction term with
  | nil => intro u _; rfl
  | cons a t ih =>
    intro u h
    cases u with
    | nil => simp [matchesAt] at h
    | cons b u2 =>
      simp only [matchesAt, Bool.and_eq_true] at h
      have h1 : a.toLower = b.toLower := by
        have := h.1; simp [charEq] at this; exact this
      have h2 := ih u2 h.2
      simp only [List.length_cons, List.take_succ_cons, lowerStr, List.map_cons] at h2 ⊢
      rw [h2, h1]

theorem findPositions_mem (text term : Str) (cs : Bool) :
    ∀ s ∈ findPositions text term cs,
      s + term.length ≤ text.length ∧ matcherOf text term cs s = true := by
  intro s hs
  obtain ⟨h1, h2, _⟩ :=
    scanAux_mem (matcherOf text term cs) term.length text.length _ _ _ hs
  exact ⟨h1, h2⟩

/-- Length in the flat buffer of the first i parts, separators included. -/
def prefixLen (parts : List Str) (i : Nat) : Nat :=
  ((parts.take i).map (fun p => p.length + 1)).sum

/-- Length in the flat buffer of all parts, separators included. -/
def sumLens (parts : List Str) : Nat := (parts.map (fun p => p.length + 1)).sum

theorem prefixLen_cons (p : Str) (rest : List Str) (i : Nat) :
    prefixLen (p :: rest) (i + 1) = (p.length + 1) + prefixLen rest i := by
  simp [prefixLen, List.take_succ_cons, List.sum_cons]

theorem paraWalk_finds :
    ∀ (parts : List Str) (pos start : Nat), pos ≤ start → start < pos + sumLens parts →
      ∃ i, paraWalk parts pos start = some i ∧ i < parts.length ∧
        pos + prefixLen parts i ≤ start ∧ start < pos + prefixLen parts (i + 1) := by
  intro parts
  induction parts with
  | nil => intro pos start h1 h2; simp [sumLens] at h2; omega
  | cons p rest ih =>
    intro pos start h1 h2
    by_cases hin : start < pos + (p.length + 1)
    · refine ⟨0, ?_, by simp, ?_, ?_⟩
      · simp [paraWalk, h1, hin]
      · simp [prefixLen]; omega
      · rw [prefixLen_cons]
        simp [prefixLen]
        omega
    · have hsum : sumLens (p :: rest) = (p.length + 1) + sumLens rest := by
        simp [sumLens, List.sum_cons]
      have h1a : pos + (p.length + 1) ≤ start := by omega
      have h2a : start < (pos + (p.length + 1)) + sumLens rest := by omega
      obtain ⟨i, hw, hlen, hlo, hhi⟩ := ih (pos + (p.length + 1)) start h1a h2a
      refine ⟨i + 1, ?_, by simp; omega, ?_, ?_⟩
      · have hcond : ¬(pos ≤ start ∧ start < pos + (p.length + 1)) := by omega
        simp [paraWalk, hcond, hw]
      · rw [prefixLen_cons]; omega
      · rw [prefixLen_cons]; omega

theorem joinNL_length :
    ∀ parts : List Str, parts ≠ [] → (joinNL parts).length + 1 = sumLens parts := by
  intro parts
  induction parts with
  | nil => intro h; exact absurd rfl h
  | cons p rest ih =>
    intro _
    cases rest with
    | nil => simp [joinNL, sumLens]
    | cons q r =>
      have h2 := ih (by simp)
      have hj : joinNL (p :: q :: r) = p ++ '\n' :: joinNL (q :: r) := rfl
      have hs : sumLens (p :: q :: r) = (p.length + 1) + sumLens (q :: r) := by
        simp [sumLens, List.sum_cons]
      rw [hj, hs]
      simp only [List.length_append, List.length_cons]
      omega

mutual
theorem rglobE_eq_filter (ext : Str) (e : FSEntry) :
    rglobE ext e = (descendE e).filter (fun x => ext.isSuffixOf (entryName x)) := by
  cases e with
  | file n c =>
    by_cases h : ext.isSuffixOf n = true <;>
      simp [rglobE, descendE, entryName, List.filter_cons, h]
  | dir n cs =>
    have hrec := rglobL_eq_filter ext cs
    by_cases h : ext.isSuffixOf n = true <;>
      simp [rglobE, descendE, entryName, List.filter_cons, h, hrec]
theorem rglobL_eq_filter (ext : Str) (l : FSList) :
    rglobL ext l = (descendL l).filter (fun x => ext.isSuffixOf (entryName x)) := by
  cases l with
  | nil => rfl
  | cons e rest =>
    have h1 := rglobE_eq_filter ext e
    have h2 := rglobL_eq_filter ext rest
    simp [rglobL, descendL, List.filter_append, h1, h2]
end

theorem replacedDoc_id (doc : Document) (old new : Str)
    (h : blockCount doc old = 0) : replacedDoc doc old new = doc := by
  unfold blockCount at h
  have hp : doc.paragraphs.countP (fun b => hasSub b old) = 0 := by omega
  have hc : ((doc.tables.map (fun t => t.flatten)).flatten).countP
      (fun b => hasSub b old) = 0 := by omega
  have hp2 := List.countP_eq_zero.mp hp
  have hc2 := List.countP_eq_zero.mp hc
  have e1 : doc.paragraphs.map
      (fun b => if hasSub b old then pyReplace b old new else b) = doc.paragraphs := by
    conv => rhs; rw [← List.map_id doc.paragraphs]
    refine List.map_congr_left ?_
    intro b hb
    simp [hp2 b hb]
  have e2 : doc.tables.map (fun t => t.map (fun row =>
      row.map (fun b => if hasSub b old then pyReplace b old new else b))) = doc.tables := by
    conv => rhs; rw [← List.map_id doc.tables]
    refine List.map_congr_left ?_
    intro t ht
    conv => rhs; rw [← List.map_id t]
    refine List.map_congr_left ?_
    intro row hrow
    conv => rhs; rw [← List.map_id row]
    refine List.map_congr_left ?_
    intro b hb
    have hbmem : b ∈ (doc.tables.map (fun t => t.flatten)).flatten := by
      refine List.mem_flatten.mpr ⟨t.flatten, List.mem_map.mpr ⟨t, ht, rfl⟩, ?_⟩
      exact List.mem_flatten.mpr ⟨row, hrow, hb⟩
    simp [hc2 b hbmem]
  cases doc with
  | mk paras tables =>
    simp only [replacedDoc] at *
    simp [e1, e2]

/-- A concrete document used by witnesses: two paragraphs and one table,
with several blocks containing "hi". -/
def docRep : Document := ⟨[str "hi hi", str "no"], [[[str "hi", str ""]]]⟩

/-- A concrete one-file file system used by witnesses. -/
def fsRep : FileSys := fun q => if q = str "f.docx" then some docRep else none

/-- C2, counterexample: for the document with the single paragraph "a" the
extracted full text is "a", not "a" followed by a newline, so the last
retained block is not followed by a separator as the claim states. -/
theorem claim_C2_cex :
    extractFullText ⟨[str "a"], []⟩ = str "a" ∧ str "a" ≠ str "a" ++ ['\n'] := by
  exact ⟨by decide, by decide⟩

/-- C2, amended: full_text is the concatenation, in traversal order, of
every retained block (non-empty-trimmed paragraphs in document order, then
every table cell in table/row/cell order), each block followed by a single
newline separator except the last block, which has no trailing separator
(equivalently, the flattened text with the final newline dropped). -/
theorem claim_C2_fulltext (doc : Document) :
    extractFullText doc =
      (((doc.paragraphs.filter keepPara ++
          (doc.tables.map (fun t => t.flatten)).flatten).map
        (fun b => b ++ ['\n'])).flatten).dropLast := by
  have h : extractFullText doc = joinNL (allTextParts doc) := rfl
  rw [h, joinNL_eq_dropLast]
  rfl

/-- C7: replace_text_advanced ignores the occurrence_id argument entirely:
any two values of it (including none) give identical outcomes and identical
final disk states; and regardless of its value, the target document ends up
with every block that contained the old text rewritten by the per-block
replace-all, i.e. all occurrences are replaced on every call. -/
theorem claim_C7_occurrence_id (fs : FileSys) (path old new ts : Str)
    (backupOk cA cB : Bool) (id1 id2 : Option Str) :
    replaceTextAdvanced fs path old new id1 ts backupOk cA cB =
      replaceTextAdvanced fs path old new id2 ts backupOk cA cB ∧
    (∀ doc : Document, fs path = some doc →
      ¬(lowerStr (pathSuffixOf path) = str ".doc") →
      (replaceTextAdvanced fs path old new id1 ts backupOk cA cB).2 path =
        some (replacedDoc doc old new)) := by
  constructor
  · rfl
  · intro doc hdoc hsuf
    have hd : decide (lowerStr (pathSuffixOf path) = str ".doc") = false :=
      decide_eq_false hsuf
    by_cases h0 : blockCount doc old = 0
    · simp [replaceTextAdvanced, updateFS, hdoc, hd, replaceCore, replaceInDoc_eq, h0,
        replacedDoc_id doc old new h0]
    · simp [replaceTextAdvanced, updateFS, hdoc, hd, replaceCore, replaceInDoc_eq, h0]

/-- C7, witness at a concrete file system, document and id pair. -/
theorem claim_C7_witness :
    (replaceTextAdvanced fsRep (str "f.docx") (str "hi") (str "yo")
        (some (str "f.docx_0_2")) (str "20240101_000000") true true true =
      replaceTextAdvanced fsRep (str "f.docx") (str "hi") (str "yo")
        none (str "20240101_000000") true true true) ∧
    (replaceTextAdvanced fsRep (str "f.docx") (str "hi") (str "yo")
        (some (str "f.docx_0_2")) (str "20240101_000000") true true true).2 (str "f.docx") =
      some (replacedDoc docRep (str "hi") (str "yo")) := by
  refine ⟨(claim_C7_occurrence_id fsRep (str "f.docx") (str "hi") (str "yo")
      (str "20240101_000000") true true true (some (str "f.docx_0_2")) none).1,
    (claim_C7_occurrence_id fsRep (str "f.docx") (str "hi") (str "yo")
      (str "20240101_000000") true true true (some (str "f.docx_0_2")) none).2
      docRep (by decide) (by decide)⟩

/-- C9: scanning a nonexistent root yields a structured failure with zero
files scanned and zero occurrences and a descriptive error; scanning any
existing directory succeeds, and for an empty directory the success result
carries zero files scanned and zero occurrences. -/
theorem claim_C9_scan_errors (dirName term : Str) (ctx : Nat) (cs : Bool) :
    ((scanDirectoryAdvanced none dirName term ctx cs).success = false ∧
      (scanDirectoryAdvanced none dirName term ctx cs).files_scanned = 0 ∧
      (scanDirectoryAdvanced none dirName term ctx cs).total_occurrences = 0 ∧
      (scanDirectoryAdvanced none dirName term ctx cs).error =
        some (str "Directory " ++ dirName ++ str " does not exist")) ∧
    (∀ entries : FSList,
      (scanDirectoryAdvanced (some entries) dirName term ctx cs).success = true) ∧
    (scanDirectoryAdvanced (some .nil) dirName term ctx cs).files_scanned = 0 ∧
    (scanDirectoryAdvanced (some .nil) dirName term ctx cs).total_occurrences = 0 := by
  exact ⟨⟨rfl, rfl, rfl, rfl⟩, fun _ => rfl, rfl, rfl⟩

/-- C10, counterexample: a file named "A.DOCX" passes the case-insensitive
is_word_file check, yet the rglob discovery pass never enumerates it, so
the directory scan reports zero files scanned instead of discovering it. -/
theorem claim_C10_cex :
    (scanDirectoryAdvanced
        (some (FSList.cons (.file (str "A.DOCX") (some ⟨[str "hi"], []⟩)) .nil))
        (str "d") (str "hi") 150 false).files_scanned = 0 ∧
      isWordFile (str "A.DOCX") = true := by
  exact ⟨by decide, by decide⟩

/-- C10, amended: directory discovery enumerates exactly the entries under
the root (recursively) whose name ends, case sensitively, with ".docx" or
".doc" — pathlib glob patterns do not match case-insensitively, so a file
whose suffix differs only in letter case is not discovered even though
is_word_file would accept it. -/
theorem claim_C10_discovery (l : FSList) :
    wordFilesOf l =
      (descendL l).filter (fun e => (str ".docx").isSuffixOf (entryName e)) ++
        (descendL l).filter (fun e => (str ".doc").isSuffixOf (entryName e)) := by
  simp [wordFilesOf, rglobL_eq_filter]

/-- C3: for every match record, slicing the flat buffer from start_pos to
end_pos yields exactly match_text; context_before is the slice from the
clamped max(0, start - contextChars) to start; context_after is the slice
from end to the clamped min(len, end + contextChars); and full_context and
context both equal the slice between the two clamped bounds. -/
theorem claim_C3_offsets (fp : Str) (doc : Document) (term : Str) (ctx : Nat)
    (cs : Bool) :
    ∀ r ∈ findOccurrences fp doc term ctx cs,
      sliceStr (extractFullText doc) r.start_pos r.end_pos = r.match_text ∧
      r.context_before = sliceStr (extractFullText doc)
        (Int.toNat (max 0 ((r.start_pos : Int) - (ctx : Int)))) r.start_pos ∧
      r.context_after = sliceStr (extractFullText doc) r.end_pos
        (min (extractFullText doc).length (r.end_pos + ctx)) ∧
      r.full_context = sliceStr (extractFullText doc)
        (Int.toNat (max 0 ((r.start_pos : Int) - (ctx : Int))))
        (min (extractFullText doc).length (r.end_pos + ctx)) ∧
      r.context = r.full_context := by
  intro r hr
  simp only [findOccurrences] at hr
  by_cases hft : (extractFullText doc).isEmpty = true
  · rw [if_pos hft] at hr
    simp at hr
  · rw [if_neg hft] at hr
    obtain ⟨s, _, rfl⟩ := List.mem_map.mp hr
    exact ⟨rfl, rfl, rfl, rfl, rfl⟩

/-- C3, witness: the first match of "hi" in the concrete document. -/
def c3r : MatchRecord :=
  (findOccurrences (str "f.docx") docRep (str "hi") 3 false).headD default

/-- C3, witness at the concrete document and its first match record. -/
theorem claim_C3_witness :
    sliceStr (extractFullText docRep) c3r.start_pos c3r.end_pos = c3r.match_text ∧
    c3r.context_before = sliceStr (extractFullText docRep)
      (Int.toNat (max 0 ((c3r.start_pos : Int) - (3 : Int)))) c3r.start_pos ∧
    c3r.context_after = sliceStr (extractFullText docRep) c3r.end_pos
      (min (extractFullText docRep).length (c3r.end_pos + 3)) ∧
    c3r.full_context = sliceStr (extractFullText docRep)
      (Int.toNat (max 0 ((c3r.start_pos : Int) - (3 : Int))))
      (min (extractFullText docRep).length (c3r.end_pos + 3)) ∧
    c3r.context = c3r.full_context := by
  exact claim_C3_offsets (str "f.docx") docRep (str "hi") 3 false c3r (by decide)

/-- C1, counterexample: in a document whose flat buffer is
"hello\nhello" — paragraph "hello" occupying offsets 0..5, the table cell
"hello" occupying 6..10 — the match starting at offset 0 lies in the
paragraph range, yet it is classified as table 0, and the match starting
at 6, which lies in the table-cell range, is classified as paragraph 0:
the table walk accounts offsets from 0 instead of from the end of the
paragraph region. -/
theorem claim_C1_cex :
    (findOccurrences (str "f.docx") ⟨[str "hello"], [[[str "hello"]]]⟩
        (str "hello") 150 true).map
        (fun r => (r.start_pos, r.location_type, r.location_index)) =
      [(0, "table", 0), (6, "paragraph", 0)] ∧
    joinNL (retainedParas ⟨[str "hello"], [[[str "hello"]]]⟩) = str "hello" := by
  exact ⟨by decide, by decide⟩

/-- C1, amended: the classification is correct when the document has no
tables: every match record is classified "paragraph" and its
location_index is the position, in the retained-paragraph list, of the
paragraph whose `text + newline` range in the flat buffer contains
start_pos.  (With tables present the table walk reconstructs cell ranges
starting from offset 0 rather than after the paragraph region, so a match
whose offset falls inside that initial region is misattributed, as the
counterexample shows.) -/
theorem claim_C1_location (fp : Str) (doc : Document) (term : Str) (ctx : Nat)
    (cs : Bool) (hterm : term ≠ []) (htab : doc.tables = []) :
    ∀ r ∈ findOccurrences fp doc term ctx cs,
      r.location_type = "paragraph" ∧
      r.location_index < (retainedParas doc).length ∧
      prefixLen (retainedParas doc) r.location_index ≤ r.start_pos ∧
      r.start_pos < prefixLen (retainedParas doc) (r.location_index + 1) := by
  intro r hr
  simp only [findOccurrences] at hr
  by_cases hft : (extractFullText doc).isEmpty = true
  · rw [if_pos hft] at hr
    simp at hr
  · rw [if_neg hft] at hr
    obtain ⟨s, hs, rfl⟩ := List.mem_map.mp hr
    have hct : cellTexts doc = [] := by simp [cellTexts, htab]
    have hat : allTextParts doc = retainedParas doc := by simp [allTextParts, hct]
    have hparts : retainedParas doc ≠ [] := by
      intro hnil
      apply hft
      simp [extractFullText, hat, hnil, joinNL]
    have hlen : (extractFullText doc).length + 1 = sumLens (retainedParas doc) := by
      rw [extractFullText, hat]
      exact joinNL_length _ hparts
    have hb := (findPositions_mem (extractFullText doc) term cs s hs).1
    have hterm1 : 1 ≤ term.length := List.length_pos.mpr hterm
    have hslt : s < sumLens (retainedParas doc) := by omega
    obtain ⟨i, hw, hilen, hlo, hhi⟩ :=
      paraWalk_finds (retainedParas doc) 0 s (Nat.zero_le s) (by omega)
    have hloc : locationOf doc s = ("paragraph", i) := by
      simp [locationOf, flatCellsIdx, htab, cellWalk, hw]
    refine ⟨?_, ?_, ?_, ?_⟩ <;> simp [hloc] <;> omega

/-- C1, witness: the single match of "a" in a table-free document. -/
def c1r : MatchRecord :=
  (findOccurrences (str "f.docx") ⟨[str "ab"], []⟩ (str "a") 2 true).headD default

/-- C1, witness at a concrete table-free document and its match record. -/
theorem claim_C1_witness :
    c1r.location_type = "paragraph" ∧
    c1r.location_index < (retainedParas ⟨[str "ab"], []⟩).length ∧
    prefixLen (retainedParas ⟨[str "ab"], []⟩) c1r.location_index ≤ c1r.start_pos ∧
    c1r.start_pos < prefixLen (retainedParas ⟨[str "ab"], []⟩) (c1r.location_index + 1) := by
  exact claim_C1_location (str "f.docx") ⟨[str "ab"], []⟩ (str "a") 2 true
    (by decide) rfl c1r (by decide)

/-- C8, counterexample: the flat buffer "Aaa" contains the lowercase
variant "aa" of the term "aa", but the case-insensitive scan's single
match has text "Aa" — the non-overlapping left-to-right scan consumes the
lowercase occurrence inside the earlier overlapping match, so no returned
match_text is lowercase. -/
theorem claim_C8_cex :
    hasSub (extractFullText ⟨[str "Aaa"], []⟩) (str "aa") = true ∧
    (findOccurrences (str "f.docx") ⟨[str "Aaa"], []⟩ (str "aa") 150 false).map
        (fun r => r.match_text) = [str "Aa"] ∧
    lowerStr (str "Aa") ≠ str "Aa" := by
  exact ⟨by decide, by decide, by decide⟩

/-- C8, amended: for a non-empty term the case-insensitive scan returns at
least as many matches as the case-sensitive scan, and every
case-insensitive match's text is a case variant of the term (it lowercases
to the lowercased term); but the result need not contain a lowercase
match even when the document contains a lowercase variant, since the
non-overlapping scan can consume that occurrence inside an earlier
case-variant match. -/
theorem claim_C8_case (fp : Str) (doc : Document) (term : Str) (ctx : Nat)
    (hterm : term ≠ []) :
    (findOccurrences fp doc term ctx true).length ≤
      (findOccurrences fp doc term ctx false).length ∧
    ∀ r ∈ findOccurrences fp doc term ctx false,
      lowerStr r.match_text = lowerStr term := by
  have hterm1 : 1 ≤ term.length := List.length_pos.mpr hterm
  constructor
  · by_cases hft : (extractFullText doc).isEmpty = true
    · simp [findOccurrences, hft]
    · simp only [findOccurrences, if_neg hft, List.length_map]
      rw [findPositions_eq_scanPos, findPositions_eq_scanPos]
      exact scanPos_length_le
        (matcherOf (extractFullText doc) term true)
        (matcherOf (extractFullText doc) term false)
        term.length (extractFullText doc).length hterm1
        (fun k hk => matchesAt_cs_imp term _ hk)
        (((extractFullText doc).length + 1 - 0) + ((extractFullText doc).length + 1 - 0))
        0 0 (Nat.le_refl _) (Nat.le_refl _)
  · intro r hr
    simp only [findOccurrences] at hr
    by_cases hft : (extractFullText doc).isEmpty = true
    · rw [if_pos hft] at hr
      simp at hr
    · rw [if_neg hft] at hr
      obtain ⟨s, hs, rfl⟩ := List.mem_map.mp hr
      have hm := (findPositions_mem (extractFullText doc) term false s hs).2
      have := matchesAt_lower term ((extractFullText doc).drop s) hm
      simpa [sliceStr, Nat.add_sub_cancel_left] using this

/-- C8, witness: the first case-insensitive match of "hi". -/
def c8r : MatchRecord :=
  (findOccurrences (str "f.docx") docRep (str "hi") 3 false).headD default

/-- C8, witness at the concrete document, term "hi". -/
theorem claim_C8_witness :
    (str "hi" ≠ []) ∧
    ((findOccurrences (str "f.docx") docRep (str "hi") 3 true).length ≤
      (findOccurrences (str "f.docx") docRep (str "hi") 3 false).length) ∧
    lowerStr c8r.match_text = lowerStr (str "hi") := by
  refine ⟨by decide,
    (claim_C8_case (str "f.docx") docRep (str "hi") 3 (by decide)).1,
    (claim_C8_case (str "f.docx") docRep (str "hi") 3 (by decide)).2 c8r (by decide)⟩

/-- C4: on a readable .docx document in which the old text occurs in at
least one block, the replace call succeeds, reports one replacement event
per block containing the old text (paragraphs plus table cells, not raw
substring occurrences), and stores the document in which every such
block's text had all its occurrences of the old text replaced. -/
theorem claim_C4_replace (fs : FileSys) (path old new ts : Str)
    (backupOk cA cB : Bool) (oid : Option Str) (doc : Document)
    (hdoc : fs path = some doc)
    (hsuf : ¬(lowerStr (pathSuffixOf path) = str ".doc"))
    (hold : old ≠ [])
    (hocc : 0 < blockCount doc old) :
    (replaceTextAdvanced fs path old new oid ts backupOk cA cB).1.success = true ∧
    (replaceTextAdvanced fs path old new oid ts backupOk cA cB).1.replacements_made =
      blockCount doc old ∧
    (replaceTextAdvanced fs path old new oid ts backupOk cA cB).2 path =
      some (replacedDoc doc old new) := by
  have hd : decide (lowerStr (pathSuffixOf path) = str ".doc") = false :=
    decide_eq_false hsuf
  have h0 : ¬(blockCount doc old = 0) := by omega
  refine ⟨?_, ?_, ?_⟩ <;>
    simp [replaceTextAdvanced, updateFS, hdoc, hd, replaceCore, replaceInDoc_eq, h0]

/-- C4, witness: "hi" occurs in one paragraph and one cell of the concrete
document, so two replacement events are reported. -/
theorem claim_C4_witness :
    (replaceTextAdvanced fsRep (str "f.docx") (str "hi") (str "yo") none
        (str "20240101_000000") true true true).1.success = true ∧
    (replaceTextAdvanced fsRep (str "f.docx") (str "hi") (str "yo") none
        (str "20240101_000000") true true true).1.replacements_made =
      blockCount docRep (str "hi") ∧
    (replaceTextAdvanced fsRep (str "f.docx") (str "hi") (str "yo") none
        (str "20240101_000000") true true true).2 (str "f.docx") =
      some (replacedDoc docRep (str "hi") (str "yo")) := by
  exact claim_C4_replace fsRep (str "f.docx") (str "hi") (str "yo")
    (str "20240101_000000") true true true none docRep
    (by decide) (by decide) (by decide) (by decide)

/-- C5: on a readable .docx document in which the old text occurs in no
paragraph and no table cell, the replace call is a failure outcome (no
exception: the embedding is a total function), with zero replacements, the
no-occurrences error message, and the content stored at the target path
unchanged. -/
theorem claim_C5_no_occurrence (fs : FileSys) (path old new ts : Str)
    (backupOk cA cB : Bool) (oid : Option Str) (doc : Document)
    (hdoc : fs path = some doc)
    (hsuf : ¬(lowerStr (pathSuffixOf path) = str ".doc"))
    (hocc : blockCount doc old = 0) :
    (replaceTextAdvanced fs path old new oid ts backupOk cA cB).1.success = false ∧
    (replaceTextAdvanced fs path old new oid ts backupOk cA cB).1.replacements_made = 0 ∧
    (replaceTextAdvanced fs path old new oid ts backupOk cA cB).1.error =
      some (noOccMsg old) ∧
    (replaceTextAdvanced fs path old new oid ts backupOk cA cB).2 path = fs path := by
  have hd : decide (lowerStr (pathSuffixOf path) = str ".doc") = false :=
    decide_eq_false hsuf
  refine ⟨?_, ?_, ?_, ?_⟩ <;>
    simp [replaceTextAdvanced, updateFS, hdoc, hd, replaceCore, replaceInDoc_eq, hocc]

/-- C5, witness: "zz" occurs nowhere in the concrete document. -/
theorem claim_C5_witness :
    (replaceTextAdvanced fsRep (str "f.docx") (str "zz") (str "yo") none
        (str "20240101_000000") true true true).1.success = false ∧
    (replaceTextAdvanced fsRep (str "f.docx") (str "zz") (str "yo") none
        (str "20240101_000000") true true true).1.replacements_made = 0 ∧
    (replaceTextAdvanced fsRep (str "f.docx") (str "zz") (str "yo") none
        (str "20240101_000000") true true true).1.error = some (noOccMsg (str "zz")) ∧
    (replaceTextAdvanced fsRep (str "f.docx") (str "zz") (str "yo") none
        (str "20240101_000000") true true true).2 (str "f.docx") = fsRep (str "f.docx") := by
  exact claim_C5_no_occurrence fsRep (str "f.docx") (str "zz") (str "yo")
    (str "20240101_000000") true true true none docRep (by decide) (by decide) (by decide)

/-- C6: the backup is taken first, before the document is opened or
mutated.  With a working copy (and a fresh timestamped name), after the
call the backup path holds exactly the pre-call content of the original
file and no other path in the backup directory changed — exactly one new
timestamped backup file.  When the copy fails, the outcome records an
empty backup path but the replacement attempt proceeds identically: same
success flag, same count, same error, same final target content, and no
other path is touched. -/
theorem claim_C6_backup (fs : FileSys) (path old new ts : Str) (cA cB : Bool)
    (oid : Option Str) (doc : Document)
    (hdoc : fs path = some doc)
    (hfresh : fs (backupFilePath path ts) = none)
    (hne : ¬(path = backupFilePath path ts)) :
    ((replaceTextAdvanced fs path old new oid ts true cA cB).1.backup_path =
        backupFilePath path ts ∧
      (replaceTextAdvanced fs path old new oid ts true cA cB).2
        (backupFilePath path ts) = some doc ∧
      (∀ q, ¬(q = backupFilePath path ts) → ¬(q = path) →
        (replaceTextAdvanced fs path old new oid ts true cA cB).2 q = fs q)) ∧
    ((replaceTextAdvanced fs path old new oid ts false cA cB).1.backup_path = [] ∧
      (replaceTextAdvanced fs path old new oid ts false cA cB).1.success =
        (replaceTextAdvanced fs path old new oid ts true cA cB).1.success ∧
      (replaceTextAdvanced fs path old new oid ts false cA cB).1.replacements_made =
        (replaceTextAdvanced fs path old new oid ts true cA cB).1.replacements_made ∧
      (replaceTextAdvanced fs path old new oid ts false cA cB).1.error =
        (replaceTextAdvanced fs path old new oid ts true cA cB).1.error ∧
      (replaceTextAdvanced fs path old new oid ts false cA cB).2 path =
        (replaceTextAdvanced fs path old new oid ts true cA cB).2 path ∧
      (∀ q, ¬(q = path) →
        (replaceTextAdvanced fs path old new oid ts false cA cB).2 q = fs q)) := by
  have hsome : (fs path).isSome = true := by rw [hdoc]; rfl
  have hne2 : ¬(backupFilePath path ts = path) := fun h => hne h.symm
  refine ⟨⟨?_, ?_, ?_⟩, ⟨?_, rfl, rfl, rfl, ?_, ?_⟩⟩
  · simp [replaceTextAdvanced, createBackup, hsome]
  · simp [replaceTextAdvanced, createBackup, hsome, updateFS, hne2, hdoc]
  · intro q hq1 hq2
    simp [replaceTextAdvanced, createBackup, hsome, updateFS, hq1, hq2]
  · simp [replaceTextAdvanced, createBackup]
  · simp [replaceTextAdvanced, createBackup, hsome, updateFS]
  · intro q hq
    simp [replaceTextAdvanced, createBackup, updateFS, hq]

/-- C6, witness: a concrete run with a fresh timestamped backup name. -/
theorem claim_C6_witness :
    (replaceTextAdvanced fsRep (str "f.docx") (str "hi") (str "yo") none
        (str "20240101_000000") true true true).1.backup_path =
      backupFilePath (str "f.docx") (str "20240101_000000") ∧
    (replaceTextAdvanced fsRep (str "f.docx") (str "hi") (str "yo") none
        (str "20240101_000000") true true true).2
      (backupFilePath (str "f.docx") (str "20240101_000000")) = some docRep ∧
    (replaceTextAdvanced fsRep (str "f.docx") (str "hi") (str "yo") none
        (str "20240101_000000") false true true).1.backup_path = [] ∧
    (replaceTextAdvanced fsRep (str "f.docx") (str "hi") (str "yo") none
        (str "20240101_000000") false true true).1.success =
      (replaceTextAdvanced fsRep (str "f.docx") (str "hi") (str "yo") none
        (str "20240101_000000") true true true).1.success := by
  obtain ⟨⟨h1, h2, _⟩, ⟨h4, h5, _⟩⟩ :=
    claim_C6_backup fsRep (str "f.docx") (str "hi") (str "yo")
      (str "20240101_000000") true true none docRep
      (by decide) (by decide) (by decide)
  exact ⟨h1, h2, h4, h5⟩

end WGR
